import Mathlib

/-!
Shallow embedding of the `Vault<ElementData, COUNT>` fixed-capacity slot pool
(the single-header container exercised by the unit tests and benchmark).

The C++ object is an `std::array<Element, COUNT>` where each `Element` holds a
payload (`data`), a per-slot mutex (`access`) and an occupancy flag (`inUse`,
`std::atomic_bool` in the LOCK_FREE variant, plain `bool` in the coarse
variant).  We verify the single-threaded behaviour, so the per-slot mutex and
the container-wide mutex are not modelled (a mutex acquired and released by a
single thread has no observable effect), and a compare-and-swap whose expected
value was just read by the same thread deterministically succeeds.  The storage
array becomes a `List` of slots whose length is the capacity `COUNT`; a raw
`Element*` held by an `ElementView` becomes an optional index into that list
(`none` models the null pointer of a default-constructed, empty view).
-/

namespace MtVault

/-- One storage cell of the vault: the payload and the occupancy flag
(`struct Element { ElementData data; std::mutex access; std::atomic_bool inUse; }`;
the mutex is invisible to a single thread and is not modelled). -/
structure Element (α : Type) where
  data  : α
  inUse : Bool
  deriving Repr, DecidableEq

/-- The pool: `std::array<Element, COUNT> storage`, with `COUNT = storage.length`. -/
structure Vault (α : Type) where
  storage : List (Element α)
  deriving Repr, DecidableEq

/-- `size_t capacity() const { return COUNT; }` -/
def Vault.capacity {α : Type} (v : Vault α) : Nat := v.storage.length

/-- Error taxonomy of the pool.  The C++ code throws `std::out_of_range` both
from `storage.at(idx)` (spec name `OutOfRange`) and from dereferencing a view
whose slot is not occupied (spec name `EmptyAccess`). -/
inductive VaultError where
  | OutOfRange
  | EmptyAccess
  deriving Repr, DecidableEq

/-- A scoped view: `std::unique_lock<std::mutex> lock; Element* ref {nullptr};`.
The lock is invisible single-threaded; `ref` becomes an optional index into the
vault's storage, `none` being the null pointer of the default constructor. -/
structure ElementView where
  ref : Option Nat
  deriving Repr, DecidableEq

/-- The default-constructed view (`ElementView() = default`): null `ref`. -/
def ElementView.empty : ElementView := ⟨none⟩

/-- Outcome of `ElementView::operator()`: either the payload, or the
`std::out_of_range("no such data")` throw (spec name `EmptyAccess`), or the
undefined behaviour of evaluating `ref->inUse` through a null `ref`. -/
inductive DerefOutcome (α : Type) where
  | ok (a : α)
  | emptyAccess
  | nullDeref
  deriving Repr, DecidableEq

/-- `ElementData& operator()() { if (!ref->inUse) throw std::out_of_range{"no such data"}; return ref->data; }`
Reading `ref->inUse` through a null `ref` is undefined behaviour, modelled by
the distinguished outcome `nullDeref`. -/
def ElementView.deref {α : Type} (ev : ElementView) (v : Vault α) : DerefOutcome α :=
  match ev.ref with
  | none => .nullDeref
  | some i =>
    match v.storage.get? i with
    | none => .nullDeref
    | some e => if e.inUse then .ok e.data else .emptyAccess

/-- `operator bool() const { return ref && ref->inUse; }` -/
def ElementView.toBool {α : Type} (ev : ElementView) (v : Vault α) : Bool :=
  match ev.ref with
  | none => false
  | some i =>
    match v.storage.get? i with
    | none => false
    | some e => e.inUse

/-- `std::ranges::find_if_not(storage, &Element::inUse)`: index of the first
slot whose `inUse` is `false`, or `none` when every slot is occupied. -/
def firstFree {α : Type} : List (Element α) → Option Nat
  | [] => none
  | e :: es => if e.inUse then (firstFree es).map (· + 1) else some 0

/-- Store `b` into slot `i`'s occupancy flag (the write half of a successful
compare-and-swap, of `inUse = true`, or of `std::exchange(inUse, false)`). -/
def setInUse {α : Type} : List (Element α) → Nat → Bool → List (Element α)
  | [], _, _ => []
  | e :: es, 0, b => { e with inUse := b } :: es
  | e :: es, i + 1, b => e :: setInUse es i b

/-- `std::pair<ElementView, bool> allocate()`, LOCK_FREE variant: scan for the
first free slot; none found returns `(ElementView{}, false)`; otherwise CAS the
flag `false → true` and return the bound view with `true`.  Single-threaded the
CAS cannot fail (the flag was just read as `false` and nobody else writes it),
so the `do { ... } while (true)` retry loop runs exactly once. -/
def Vault.allocate {α : Type} (v : Vault α) : (ElementView × Bool) × Vault α :=
  match firstFree v.storage with
  | none => ((ElementView.empty, false), v)
  | some i => ((⟨some i⟩, true), ⟨setInUse v.storage i true⟩)

/-- `ElementView view(size_t idx) { return ElementView{storage.at(idx)}; }`:
`at` throws `std::out_of_range` when `idx ≥ COUNT`; otherwise the view binds
the slot with occupancy unchecked. -/
def Vault.view {α : Type} (v : Vault α) (idx : Nat) : Except VaultError ElementView :=
  if idx < v.storage.length then .ok ⟨some idx⟩ else .error .OutOfRange

/-- `bool deallocate(size_t idx)`, LOCK_FREE variant: `storage.at(idx)` throws
`OutOfRange` when `idx ≥ COUNT`; otherwise
`bool exp{true}; return inUse.compare_exchange_strong(exp, false);` —
the CAS stores `false` and returns `true` exactly when the flag was `true`. -/
def Vault.deallocate {α : Type} (v : Vault α) (idx : Nat) :
    Except VaultError (Bool × Vault α) :=
  match v.storage.get? idx with
  | none => .error .OutOfRange
  | some e =>
    if e.inUse then .ok (true, ⟨setInUse v.storage idx false⟩)
    else .ok (false, v)

/-- `std::ranges::find_if` over the body of the predicate deallocation scan:
index of the first slot with `inUse && pred(data)` (the LOCK_FREE loop tests
`v && pred(v())`, i.e. occupancy first, predicate second), or `none`. -/
def firstMatch {α : Type} (p : α → Bool) : List (Element α) → Option Nat
  | [] => none
  | e :: es =>
    if e.inUse && p e.data then some 0 else (firstMatch p es).map (· + 1)

/-- Instrumented scan recording every payload the predicate is applied to:
`if (v && pred(v()))` evaluates `pred` only after the occupancy test passed,
so the trace collects payloads of occupied slots only, in ascending order. -/
def firstMatchTrace {α : Type} (p : α → Bool) :
    List (Element α) → Option Nat × List α
  | [] => (none, [])
  | e :: es =>
    if e.inUse then
      if p e.data then (some 0, [e.data])
      else
        let (r, t) := firstMatchTrace p es
        (r.map (· + 1), e.data :: t)
    else
      let (r, t) := firstMatchTrace p es
      (r.map (· + 1), t)

/-- `bool deallocate(const std::function<bool(const ElementData&)>& pred)`,
LOCK_FREE variant: scan slots in order; on the first slot with
`v && pred(v())`, CAS the flag `true → false` and return `true`; return
`false` after a full scan with no match.  Single-threaded the weak CAS on a
flag just read as `true` succeeds (no spurious failure is modelled). -/
def Vault.deallocatePred {α : Type} (v : Vault α) (p : α → Bool) :
    Bool × Vault α :=
  match firstMatch p v.storage with
  | none => (false, v)
  | some i => (true, ⟨setInUse v.storage i false⟩)

/-- Occupancy of slot `i` as observed from outside (`storage[i].inUse`);
`false` for an out-of-range index. -/
def Vault.occupiedAt {α : Type} (v : Vault α) (i : Nat) : Bool :=
  match v.storage.get? i with
  | none => false
  | some e => e.inUse

/-- Number of occupied slots (what `std::count_if(begin(), end(), ...)`
observes in the tests). -/
def Vault.occupiedCount {α : Type} (v : Vault α) : Nat :=
  (v.storage.filter (·.inUse)).length

/-- Payload list of the pool, the component the frame claims are about. -/
def Vault.dataList {α : Type} (v : Vault α) : List α :=
  v.storage.map (·.data)

/-- A freshly constructed pool: every slot default-initialised with payload `a`
and `inUse {false}`. -/
def freshVault (α : Type) (a : α) (n : Nat) : Vault α :=
  ⟨List.replicate n ⟨a, false⟩⟩

/-! ### The iterator

`Vault::iterator` stores a position into `storage`; `begin()` is
`find_if(storage, inUse)`, `operator++` is `find_if(iter + 1, end, inUse)`,
`end()` is `storage.end()`, and equality compares positions.  A position is a
`Nat` in `[0, COUNT]`, `COUNT` being `end()`. -/

/-- `std::find_if(first = position s, storage.end(), e.inUse.load())`:
the position of the first occupied slot at index `≥ s`, or `storage.length`
(that is, `end()`) when there is none. -/
def findOccFrom {α : Type} (l : List (Element α)) (s : Nat) : Nat :=
  if h : s < l.length then
    if (l.get ⟨s, h⟩).inUse then s else findOccFrom l (s + 1)
  else l.length
termination_by l.length - s

/-- A search never moves backwards: `s ≤ findOccFrom l s` for an in-range
start position. -/
theorem le_findOccFrom {α : Type} (l : List (Element α)) (s : Nat)
    (hs : s ≤ l.length) : s ≤ findOccFrom l s := by
  unfold findOccFrom
  split
  · split
    · exact Nat.le_refl s
    · rename_i h _
      exact Nat.le_trans (Nat.le_succ s) (le_findOccFrom l (s + 1) h)
  · omega
termination_by l.length - s

/-- The sequence of positions an iteration visits starting at position `pos`:
while `pos ≠ end()`, yield `pos` and step with `operator++`
(`find_if(iter + 1, ...)`). -/
def iterSeq {α : Type} (l : List (Element α)) (pos : Nat) : List Nat :=
  if h : pos < l.length then pos :: iterSeq l (findOccFrom l (pos + 1))
  else []
termination_by l.length - pos
decreasing_by
  have := le_findOccFrom l (pos + 1) (by omega)
  omega

/-- The index sequence produced by iterating from `begin()` to `end()`. -/
def Vault.iterIndices {α : Type} (v : Vault α) : List Nat :=
  iterSeq v.storage (findOccFrom v.storage 0)

/-! ### The coarse variant (`LOCK_FREE == 0`)

Same storage, plain `bool inUse`, every occupancy transition serialized behind
the container-wide mutex `access` (invisible to a single thread). -/

/-- `allocate()`, coarse variant: under the container lock,
`find_if_not(storage, inUse)`; at `end()` return `(ElementView{}, false)`;
otherwise bind the view and store `inUse = true`. -/
def Vault.allocateCoarse {α : Type} (v : Vault α) : (ElementView × Bool) × Vault α :=
  match firstFree v.storage with
  | none => ((ElementView.empty, false), v)
  | some i => ((⟨some i⟩, true), ⟨setInUse v.storage i true⟩)

/-- `deallocate(size_t idx)`, coarse variant: `storage.at(idx)` throws
`OutOfRange` out of range; otherwise `return std::exchange(e.ref->inUse, false);`
— store `false` unconditionally and return the previous value. -/
def Vault.deallocateCoarse {α : Type} (v : Vault α) (idx : Nat) :
    Except VaultError (Bool × Vault α) :=
  match v.storage.get? idx with
  | none => .error .OutOfRange
  | some e => .ok (e.inUse, ⟨setInUse v.storage idx false⟩)

/-- `deallocate(pred)`, coarse variant: a `do { ... } while (true)` loop that
re-runs `find_if(storage, e.inUse && pred(e.data))` each pass; no match returns
`false`; on a match, re-evaluate the predicate under the slot lock — `continue`
(another pass) when it no longer holds, else
`return std::exchange(iter->inUse, false)`.  The loop is embedded with explicit
fuel, one unit per pass; `none` models running out of fuel (the loop would be
on a further pass). -/
def deallocPredCoarseFuel {α : Type} (p : α → Bool) (v : Vault α) :
    Nat → Option (Bool × Vault α)
  | 0 => none
  | fuel + 1 =>
    match firstMatch p v.storage with
    | none => some (false, v)
    | some i =>
      match v.storage.get? i with
      | none => none
      | some e =>
        if p e.data then some (e.inUse, ⟨setInUse v.storage i false⟩)
        else deallocPredCoarseFuel p v fuel

/-! ### Single-threaded call sequences

A client op is one of the three mutating calls; `view`, iteration and
`capacity` do not change pool state. -/

/-- One mutating call of the pool's interface. -/
inductive Op (α : Type) where
  | alloc
  | deallocIdx (i : Nat)
  | deallocByPred (p : α → Bool)

/-- Whether an op is an allocation. -/
def Op.isAlloc {α : Type} : Op α → Bool
  | .alloc => true
  | _ => false

/-- Execute one op, returning its reported success flag and the new pool
state.  A `deallocate(idx)` that throws `OutOfRange` reports no success and
leaves the pool untouched. -/
def stepOp {α : Type} (v : Vault α) : Op α → Bool × Vault α
  | .alloc => ((v.allocate).1.2, (v.allocate).2)
  | .deallocIdx i =>
    match v.deallocate i with
    | .ok bw => bw
    | .error _ => (false, v)
  | .deallocByPred p => v.deallocatePred p

/-- Run a list of ops, counting the calls that reported success:
`(final state, successful allocations, successful deallocations)`. -/
def runCount {α : Type} : Vault α → List (Op α) → Vault α × Nat × Nat
  | v, [] => (v, 0, 0)
  | v, op :: ops =>
    let r := stepOp v op
    let rest := runCount r.2 ops
    if op.isAlloc then
      (rest.1, rest.2.1 + (if r.1 then 1 else 0), rest.2.2)
    else
      (rest.1, rest.2.1, rest.2.2 + (if r.1 then 1 else 0))

/-- A small concrete pool used to instantiate theorems: slots `10` (occupied),
`20` (free), `30` (occupied). -/
def sampleVault : Vault Nat := ⟨[⟨10, true⟩, ⟨20, false⟩, ⟨30, true⟩]⟩

/-- A concrete pool with every slot occupied. -/
def fullVault : Vault Nat := ⟨[⟨5, true⟩]⟩

/-- The payloads a short-circuit scan applies its predicate to, given the
payload sequence of the occupied slots: every payload before the first match,
then the match itself, nothing after it. -/
def predScanTrace {α : Type} (p : α → Bool) : List α → List α
  | [] => []
  | a :: as => if p a then [a] else a :: predScanTrace p as

/-- The ascending list of occupied indices `≥ s` (the reference value the
iterator sequence is compared against). -/
def occIdxFrom {α : Type} (l : List (Element α)) (s : Nat) : List Nat :=
  if h : s < l.length then
    (if (l.get ⟨s, h⟩).inUse then [s] else []) ++ occIdxFrom l (s + 1)
  else []
termination_by l.length - s

/-! ## Helper lemmas -/

theorem setInUse_length {α : Type} (l : List (Element α)) (i : Nat) (b : Bool) :
    (setInUse l i b).length = l.length := by
  induction l generalizing i with
  | nil => rfl
  | cons e es ih =>
    cases i with
    | zero => rfl
    | succ j => simp [setInUse, ih]

theorem setInUse_get?_ne {α : Type} (l : List (Element α)) (i j : Nat) (b : Bool)
    (h : j ≠ i) : (setInUse l i b).get? j = l.get? j := by
  induction l generalizing i j with
  | nil => rfl
  | cons e es ih =>
    cases i with
    | zero =>
      cases j with
      | zero => exact absurd rfl h
      | succ k => rfl
    | succ i' =>
      cases j with
      | zero => rfl
      | succ k =>
        simp only [setInUse, List.get?_cons_succ]
        exact ih i' k (fun hk => h (by omega))

theorem setInUse_get?_self {α : Type} (l : List (Element α)) (i : Nat) (b : Bool)
    (e : Element α) (h : l.get? i = some e) :
    (setInUse l i b).get? i = some { e with inUse := b } := by
  induction l generalizing i with
  | nil => simp [List.get?] at h
  | cons f fs ih =>
    cases i with
    | zero =>
      simp only [List.get?_cons_zero, Option.some.injEq] at h
      simp [setInUse, h]
    | succ j =>
      simp only [List.get?_cons_succ] at h
      simpa [setInUse] using ih j h

theorem setInUse_map_data {α : Type} (l : List (Element α)) (i : Nat) (b : Bool) :
    (setInUse l i b).map Element.data = l.map Element.data := by
  induction l generalizing i with
  | nil => rfl
  | cons e es ih =>
    cases i with
    | zero => rfl
    | succ j => simp [setInUse, ih]

theorem setInUse_eq_self {α : Type} (l : List (Element α)) (i : Nat) (b : Bool)
    (e : Element α) (h : l.get? i = some e) (hb : e.inUse = b) :
    setInUse l i b = l := by
  induction l generalizing i with
  | nil => rfl
  | cons f fs ih =>
    cases i with
    | zero =>
      simp only [List.get?_cons_zero, Option.some.injEq] at h
      subst h
      simp [setInUse, ← hb]
    | succ j =>
      simp only [List.get?_cons_succ] at h
      simp [setInUse, ih j h]

theorem countTrue_setInUse {α : Type} (l : List (Element α)) (i : Nat) (b : Bool)
    (e : Element α) (h : l.get? i = some e) :
    ((setInUse l i b).filter (·.inUse)).length + (if e.inUse then 1 else 0)
      = (l.filter (·.inUse)).length + (if b then 1 else 0) := by
  induction l generalizing i with
  | nil => simp [List.get?] at h
  | cons f fs ih =>
    cases i with
    | zero =>
      simp only [List.get?_cons_zero, Option.some.injEq] at h
      subst h
      cases hb : b <;> cases he : f.inUse <;>
        simp [setInUse, List.filter, he, hb]
    | succ j =>
      simp only [List.get?_cons_succ] at h
      have := ih j h
      cases hf : f.inUse <;> simp [setInUse, List.filter, hf] <;> omega

theorem firstFree_none {α : Type} (l : List (Element α))
    (h : firstFree l = none) :
    ∀ j e, l.get? j = some e → e.inUse = true := by
  induction l with
  | nil => intro j e hj; simp [List.get?] at hj
  | cons f fs ih =>
    intro j e hj
    by_cases hf : f.inUse = true
    · cases j with
      | zero =>
        simp only [List.get?_cons_zero, Option.some.injEq] at hj
        subst hj; exact hf
      | succ k =>
        simp only [List.get?_cons_succ] at hj
        have hfs : firstFree fs = none := by
          simpa [firstFree, hf, Option.map_eq_none'] using h
        exact ih hfs k e hj
    · simp [firstFree, Bool.not_eq_true _ |>.mp hf] at h

theorem firstFree_some {α : Type} (l : List (Element α)) (i : Nat)
    (h : firstFree l = some i) :
    ∃ e, l.get? i = some e ∧ e.inUse = false := by
  induction l generalizing i with
  | nil => simp [firstFree] at h
  | cons f fs ih =>
    by_cases hf : f.inUse = true
    · simp only [firstFree, hf, if_true, Option.map_eq_some'] at h
      obtain ⟨i', hi', rfl⟩ := h
      obtain ⟨e, he, hu⟩ := ih i' hi'
      exact ⟨e, by simpa using he, hu⟩
    · have hf' : f.inUse = false := Bool.not_eq_true _ |>.mp hf
      have h0 : i = 0 := by simp [firstFree, hf'] at h; omega
      subst h0
      exact ⟨f, rfl, hf'⟩

theorem firstFree_some_lt {α : Type} (l : List (Element α)) (i : Nat)
    (h : firstFree l = some i) :
    ∀ j, j < i → ∃ e, l.get? j = some e ∧ e.inUse = true := by
  induction l generalizing i with
  | nil => simp [firstFree] at h
  | cons f fs ih =>
    by_cases hf : f.inUse = true
    · simp only [firstFree, hf, if_true, Option.map_eq_some'] at h
      obtain ⟨i', hi', rfl⟩ := h
      intro j hj
      cases j with
      | zero => exact ⟨f, rfl, hf⟩
      | succ k =>
        obtain ⟨e, he, hu⟩ := ih i' hi' k (by omega)
        exact ⟨e, by simpa using he, hu⟩
    · have hf' : f.inUse = false := Bool.not_eq_true _ |>.mp hf
      have h0 : i = 0 := by simp [firstFree, hf'] at h; omega
      subst h0
      intro j hj
      omega

theorem firstMatch_none {α : Type} (p : α → Bool) (l : List (Element α))
    (h : firstMatch p l = none) :
    ∀ j e, l.get? j = some e → (e.inUse && p e.data) = false := by
  induction l with
  | nil => intro j e hj; simp [List.get?] at hj
  | cons f fs ih =>
    intro j e hj
    by_cases hf : (f.inUse && p f.data) = true
    · simp [firstMatch, hf] at h
    · have hf' := Bool.not_eq_true _ |>.mp hf
      cases j with
      | zero =>
        simp only [List.get?_cons_zero, Option.some.injEq] at hj
        subst hj; exact hf'
      | succ k =>
        simp only [List.get?_cons_succ] at hj
        have hfs : firstMatch p fs = none := by
          simpa [firstMatch, hf', Option.map_eq_none'] using h
        exact ih hfs k e hj

theorem firstMatch_some {α : Type} (p : α → Bool) (l : List (Element α)) (i : Nat)
    (h : firstMatch p l = some i) :
    ∃ e, l.get? i = some e ∧ e.inUse = true ∧ p e.data = true := by
  induction l generalizing i with
  | nil => simp [firstMatch] at h
  | cons f fs ih =>
    by_cases hf : (f.inUse && p f.data) = true
    · have h0 : i = 0 := by simp [firstMatch, hf] at h; omega
      subst h0
      exact ⟨f, rfl, (Bool.and_eq_true _ _).mp hf |>.1, (Bool.and_eq_true _ _).mp hf |>.2⟩
    · have hf' := Bool.not_eq_true _ |>.mp hf
      simp only [firstMatch, hf', Bool.false_eq_true, if_false, Option.map_eq_some'] at h
      obtain ⟨i', hi', rfl⟩ := h
      obtain ⟨e, he, hu, hp⟩ := ih i' hi'
      exact ⟨e, by simpa using he, hu, hp⟩

theorem firstMatch_some_lt {α : Type} (p : α → Bool) (l : List (Element α)) (i : Nat)
    (h : firstMatch p l = some i) :
    ∀ j, j < i → ∀ e, l.get? j = some e → (e.inUse && p e.data) = false := by
  induction l generalizing i with
  | nil => simp [firstMatch] at h
  | cons f fs ih =>
    by_cases hf : (f.inUse && p f.data) = true
    · have h0 : i = 0 := by simp [firstMatch, hf] at h; omega
      subst h0
      intro j hj
      omega
    · have hf' := Bool.not_eq_true _ |>.mp hf
      simp only [firstMatch, hf', Bool.false_eq_true, if_false, Option.map_eq_some'] at h
      obtain ⟨i', hi', rfl⟩ := h
      intro j hj e hj'
      cases j with
      | zero =>
        simp only [List.get?_cons_zero, Option.some.injEq] at hj'
        subst hj'; exact hf'
      | succ k =>
        simp only [List.get?_cons_succ] at hj'
        exact ih i' hi' k (by omega) e hj'

theorem occupiedAt_of_get? {α : Type} {v : Vault α} {i : Nat} {e : Element α}
    (h : v.storage.get? i = some e) : v.occupiedAt i = e.inUse := by
  unfold Vault.occupiedAt
  rw [h]

theorem occupiedAt_of_get?_none {α : Type} {v : Vault α} {i : Nat}
    (h : v.storage.get? i = none) : v.occupiedAt i = false := by
  unfold Vault.occupiedAt
  rw [h]

theorem deallocate_eq_some {α : Type} {v : Vault α} {idx : Nat} {e : Element α}
    (h : v.storage.get? idx = some e) :
    v.deallocate idx
      = if e.inUse then .ok (true, ⟨setInUse v.storage idx false⟩)
        else .ok (false, v) := by
  unfold Vault.deallocate
  rw [h]

theorem deallocate_eq_none {α : Type} {v : Vault α} {idx : Nat}
    (h : v.storage.get? idx = none) :
    v.deallocate idx = .error .OutOfRange := by
  unfold Vault.deallocate
  rw [h]

/-! ## Claim theorems -/

/-- Claim C1: with at least one free slot, a single-threaded `allocate()`
succeeds and claims exactly the lowest-index free slot, flipping its occupancy
`false → true` and leaving every other slot unchanged; with every slot
occupied it returns `success = false` with an empty view and changes no slot. -/
theorem allocate_spec {α : Type} (v : Vault α) :
    ((∃ j, j < v.capacity ∧ v.occupiedAt j = false) →
      ∃ i w, v.allocate = ((⟨some i⟩, true), w) ∧
        v.occupiedAt i = false ∧ w.occupiedAt i = true ∧
        (∀ j, j < i → v.occupiedAt j = true) ∧
        (∀ j, j ≠ i → w.storage.get? j = v.storage.get? j))
    ∧ ((∀ j, j < v.capacity → v.occupiedAt j = true) →
      v.allocate = ((ElementView.empty, false), v)) := by
  constructor
  · rintro ⟨j, hj, hocc⟩
    have hj' : v.storage.get? j = some (v.storage.get ⟨j, hj⟩) := List.get?_eq_get hj
    cases hff : firstFree v.storage with
    | none =>
      have := firstFree_none v.storage hff j _ hj'
      rw [occupiedAt_of_get? hj', this] at hocc
      exact absurd hocc (by simp)
    | some i =>
      obtain ⟨e, he, hu⟩ := firstFree_some v.storage i hff
      refine ⟨i, ⟨setInUse v.storage i true⟩, ?_, ?_, ?_, ?_, ?_⟩
      · rw [Vault.allocate, hff]
      · rw [occupiedAt_of_get? he, hu]
      · have hs := setInUse_get?_self v.storage i true e he
        exact occupiedAt_of_get? (v := ⟨setInUse v.storage i true⟩) hs
      · intro k hk
        obtain ⟨e', he', hu'⟩ := firstFree_some_lt v.storage i hff k hk
        rw [occupiedAt_of_get? he', hu']
      · intro k hk
        exact setInUse_get?_ne v.storage i k true hk
  · intro hall
    cases hff : firstFree v.storage with
    | none => rw [Vault.allocate, hff]
    | some i =>
      obtain ⟨e, he, hu⟩ := firstFree_some v.storage i hff
      have hi : i < v.capacity := List.get?_eq_some.mp he |>.choose
      have := hall i hi
      rw [occupiedAt_of_get? he, hu] at this
      exact absurd this (by simp)

/-- Witness for C1: on `sampleVault` (slot 1 free) allocation claims slot 1;
on `fullVault` (all slots occupied) allocation fails and changes nothing. -/
theorem allocate_spec_witness :
    (∃ i w, sampleVault.allocate = ((⟨some i⟩, true), w) ∧
      sampleVault.occupiedAt i = false ∧ w.occupiedAt i = true ∧
      (∀ j, j < i → sampleVault.occupiedAt j = true) ∧
      (∀ j, j ≠ i → w.storage.get? j = sampleVault.storage.get? j))
    ∧ fullVault.allocate = ((ElementView.empty, false), fullVault) :=
  ⟨(allocate_spec sampleVault).1 ⟨1, by decide, by decide⟩,
   (allocate_spec fullVault).2 (by decide)⟩

/-- Claim C3: for an in-range occupied slot `i`, `deallocate(i)` returns
`true` and flips the slot to free; an immediately following `deallocate(i)`
returns `false`; `deallocate` on an already-free in-range slot is a no-op
returning `false`; the freeing call leaves every other slot unchanged. -/
theorem deallocate_idx_spec {α : Type} (v : Vault α) (i : Nat)
    (h : i < v.capacity) :
    (v.occupiedAt i = true →
      ∃ w, v.deallocate i = .ok (true, w) ∧ w.occupiedAt i = false ∧
        (∀ j, j ≠ i → w.storage.get? j = v.storage.get? j) ∧
        w.deallocate i = .ok (false, w))
    ∧ (v.occupiedAt i = false → v.deallocate i = .ok (false, v)) := by
  have hi : v.storage.get? i = some (v.storage.get ⟨i, h⟩) := List.get?_eq_get h
  constructor
  · intro hocc
    rw [occupiedAt_of_get? hi] at hocc
    refine ⟨⟨setInUse v.storage i false⟩, ?_, ?_, ?_, ?_⟩
    · rw [deallocate_eq_some hi, if_pos hocc]
    · have hs := setInUse_get?_self v.storage i false _ hi
      exact occupiedAt_of_get? (v := ⟨setInUse v.storage i false⟩) hs
    · intro j hj
      exact setInUse_get?_ne v.storage i j false hj
    · have hs := setInUse_get?_self v.storage i false _ hi
      rw [deallocate_eq_some (v := ⟨setInUse v.storage i false⟩) hs]
      simp
  · intro hocc
    rw [occupiedAt_of_get? hi] at hocc
    rw [deallocate_eq_some hi, hocc]
    simp

/-- Witness for C3: in `sampleVault`, slot 0 is occupied — deallocation frees
it once and a second call returns `false`; slot 1 is free — deallocation is a
`false`-returning no-op. -/
theorem deallocate_idx_spec_witness :
    (∃ w, sampleVault.deallocate 0 = .ok (true, w) ∧ w.occupiedAt 0 = false ∧
      (∀ j, j ≠ 0 → w.storage.get? j = sampleVault.storage.get? j) ∧
      w.deallocate 0 = .ok (false, w))
    ∧ sampleVault.deallocate 1 = .ok (false, sampleVault) :=
  ⟨(deallocate_idx_spec sampleVault 0 (by decide)).1 (by decide),
   (deallocate_idx_spec sampleVault 1 (by decide)).2 (by decide)⟩

/-- Claim C6: `deallocate(idx)` and `view(idx)` fail with `OutOfRange` exactly
when `idx ≥ capacity`; for `idx < capacity` both succeed without error; and an
out-of-range `deallocate` leaves the pool untouched. -/
theorem out_of_range_spec {α : Type} (v : Vault α) (idx : Nat) :
    ((v.capacity ≤ idx) ↔ v.deallocate idx = .error .OutOfRange)
    ∧ ((v.capacity ≤ idx) ↔ v.view idx = .error .OutOfRange)
    ∧ (idx < v.capacity →
        (∃ b w, v.deallocate idx = .ok (b, w)) ∧ (∃ ev, v.view idx = .ok ev))
    ∧ (v.capacity ≤ idx → stepOp v (.deallocIdx idx) = (false, v)) := by
  refine ⟨⟨?_, ?_⟩, ⟨?_, ?_⟩, ?_, ?_⟩
  · intro hle
    exact deallocate_eq_none (List.get?_eq_none.mpr hle)
  · intro herr
    by_contra hlt
    push_neg at hlt
    have hi : v.storage.get? idx = some (v.storage.get ⟨idx, hlt⟩) := List.get?_eq_get hlt
    rw [deallocate_eq_some hi] at herr
    split at herr <;> simp at herr
  · intro hle
    have hle' : v.storage.length ≤ idx := hle
    rw [Vault.view, if_neg (by omega)]
  · intro herr
    by_contra hlt
    push_neg at hlt
    have hlt' : idx < v.storage.length := hlt
    rw [Vault.view, if_pos hlt'] at herr
    exact absurd herr (by simp)
  · intro hlt
    have hi : v.storage.get? idx = some (v.storage.get ⟨idx, hlt⟩) := List.get?_eq_get hlt
    constructor
    · rw [deallocate_eq_some hi]
      cases hu : (v.storage.get ⟨idx, hlt⟩).inUse with
      | true => exact ⟨true, ⟨setInUse v.storage idx false⟩, by simp⟩
      | false => exact ⟨false, v, by simp⟩
    · refine ⟨⟨some idx⟩, ?_⟩
      have hlt' : idx < v.storage.length := hlt
      rw [Vault.view, if_pos hlt']
  · intro hle
    rw [stepOp, deallocate_eq_none (List.get?_eq_none.mpr hle)]

/-- Witness for C6: on `sampleVault` (capacity 3), index 5 fails both calls
with `OutOfRange` and leaves the pool untouched, while index 2 raises no
error. -/
theorem out_of_range_spec_witness :
    sampleVault.deallocate 5 = .error .OutOfRange
    ∧ sampleVault.view 5 = .error .OutOfRange
    ∧ ((∃ b w, sampleVault.deallocate 2 = .ok (b, w))
        ∧ (∃ ev, sampleVault.view 2 = .ok ev))
    ∧ stepOp sampleVault (.deallocIdx 5) = (false, sampleVault) :=
  ⟨(out_of_range_spec sampleVault 5).1.mp (by decide),
   (out_of_range_spec sampleVault 5).2.1.mp (by decide),
   (out_of_range_spec sampleVault 2).2.2.1 (by decide),
   (out_of_range_spec sampleVault 5).2.2.2 (by decide)⟩

theorem deallocatePred_eq_some {α : Type} {v : Vault α} {p : α → Bool} {i : Nat}
    (h : firstMatch p v.storage = some i) :
    v.deallocatePred p = (true, ⟨setInUse v.storage i false⟩) := by
  unfold Vault.deallocatePred
  rw [h]

theorem deallocatePred_eq_none {α : Type} {v : Vault α} {p : α → Bool}
    (h : firstMatch p v.storage = none) :
    v.deallocatePred p = (false, v) := by
  unfold Vault.deallocatePred
  rw [h]

/-- The instrumented scan finds the same slot as the plain scan. -/
theorem firstMatchTrace_fst {α : Type} (p : α → Bool) (l : List (Element α)) :
    (firstMatchTrace p l).1 = firstMatch p l := by
  induction l with
  | nil => rfl
  | cons f fs ih =>
    by_cases hf : f.inUse = true
    · by_cases hp : p f.data = true
      · simp [firstMatchTrace, firstMatch, hf, hp]
      · simp [firstMatchTrace, firstMatch, hf, hp, ih]
    · have hf' := Bool.not_eq_true _ |>.mp hf
      simp [firstMatchTrace, firstMatch, hf', ih]

/-- The predicate is applied exactly to the payloads of the occupied slots,
in ascending index order, up to and including the first match. -/
theorem firstMatchTrace_snd {α : Type} (p : α → Bool) (l : List (Element α)) :
    (firstMatchTrace p l).2
      = predScanTrace p ((l.filter (·.inUse)).map (·.data)) := by
  induction l with
  | nil => rfl
  | cons f fs ih =>
    by_cases hf : f.inUse = true
    · by_cases hp : p f.data = true
      · simp [firstMatchTrace, List.filter, hf, predScanTrace, hp]
      · simp [firstMatchTrace, List.filter, hf, predScanTrace, hp, ih]
    · have hf' := Bool.not_eq_true _ |>.mp hf
      simp [firstMatchTrace, List.filter, hf', ih]

/-- Claim C4: `deallocate(predicate)` evaluates the predicate only on payloads
of occupied slots, in ascending index order (the scan trace is exactly the
occupied payload sequence cut at the first match); it frees exactly the
lowest-index occupied matching slot and returns `true`; with no occupied
matching slot it returns `false` and leaves every slot unchanged. -/
theorem deallocate_pred_spec {α : Type} (v : Vault α) (p : α → Bool) :
    ((∃ i e, v.storage.get? i = some e ∧ e.inUse = true ∧ p e.data = true) →
      ∃ i e w, v.storage.get? i = some e ∧ e.inUse = true ∧ p e.data = true ∧
        v.deallocatePred p = (true, w) ∧
        (∀ j, j < i → ∀ f, v.storage.get? j = some f → (f.inUse && p f.data) = false) ∧
        w.occupiedAt i = false ∧
        (∀ j, j ≠ i → w.storage.get? j = v.storage.get? j))
    ∧ ((∀ j e, v.storage.get? j = some e → (e.inUse && p e.data) = false) →
        v.deallocatePred p = (false, v))
    ∧ (firstMatchTrace p v.storage).2
        = predScanTrace p ((v.storage.filter (·.inUse)).map (·.data))
    ∧ (firstMatchTrace p v.storage).1 = firstMatch p v.storage := by
  refine ⟨?_, ?_, firstMatchTrace_snd p v.storage, firstMatchTrace_fst p v.storage⟩
  · rintro ⟨i, e, he, hu, hp⟩
    cases hm : firstMatch p v.storage with
    | none =>
      have := firstMatch_none p v.storage hm i e he
      rw [hu, hp] at this
      exact absurd this (by simp)
    | some k =>
      obtain ⟨f, hf, hfu, hfp⟩ := firstMatch_some p v.storage k hm
      refine ⟨k, f, ⟨setInUse v.storage k false⟩, hf, hfu, hfp,
        deallocatePred_eq_some hm, firstMatch_some_lt p v.storage k hm, ?_, ?_⟩
      · have hs := setInUse_get?_self v.storage k false _ hf
        exact occupiedAt_of_get? (v := ⟨setInUse v.storage k false⟩) hs
      · intro j hj
        exact setInUse_get?_ne v.storage k j false hj
  · intro hall
    cases hm : firstMatch p v.storage with
    | none => exact deallocatePred_eq_none hm
    | some k =>
      obtain ⟨f, hf, hfu, hfp⟩ := firstMatch_some p v.storage k hm
      have := hall k f hf
      rw [hfu, hfp] at this
      exact absurd this (by simp)

/-- Witness for C4: on `sampleVault` the predicate `25 ≤ a` matches only the
occupied slot 2, which one call frees; the predicate `a = 20` matches no
occupied payload (slot 1 holds 20 but is free), so the call is a no-op. -/
theorem deallocate_pred_spec_witness :
    (∃ i e w, sampleVault.storage.get? i = some e ∧ e.inUse = true
      ∧ (25 ≤ e.data) = true ∧
      sampleVault.deallocatePred (fun a => 25 ≤ a) = (true, w) ∧
      (∀ j, j < i → ∀ f, sampleVault.storage.get? j = some f →
        (f.inUse && (25 ≤ f.data)) = false) ∧
      w.occupiedAt i = false ∧
      (∀ j, j ≠ i → w.storage.get? j = sampleVault.storage.get? j))
    ∧ sampleVault.deallocatePred (fun a => a = 20) = (false, sampleVault) :=
  ⟨by
    have h := (deallocate_pred_spec sampleVault (fun a => 25 ≤ a)).1
      ⟨2, ⟨30, true⟩, by decide, by decide, by decide⟩
    simpa using h,
   (deallocate_pred_spec sampleVault (fun a => a = 20)).2.1 (by
    intro j e hj
    have h3 : j < 3 := List.get?_eq_some.mp hj |>.choose
    interval_cases j <;> simp_all [sampleVault, List.get?] <;>
      (subst hj; simp))⟩

/-- Counterexample to C5 as stated: on a full pool `allocate()` fails and
hands back the empty view (`ref == nullptr`); `operator()` then evaluates
`ref->inUse` through the null pointer — undefined behaviour, not the claimed
`EmptyAccess` failure (the code guards `ref` in `operator bool` but not in
`operator()`). -/
theorem view_deref_empty_counterexample :
    (fullVault.allocate).1.2 = false
    ∧ (fullVault.allocate).1.1 = ElementView.empty
    ∧ ((fullVault.allocate).1.1).deref fullVault = DerefOutcome.nullDeref
    ∧ ((fullVault.allocate).1.1).deref fullVault ≠ DerefOutcome.emptyAccess := by
  refine ⟨rfl, rfl, rfl, ?_⟩
  intro h
  exact absurd h (by decide)

/-- Claim C5 (amended): dereferencing a view bound to an occupied slot yields
the payload; dereferencing a view bound to a slot that is not occupied fails
with `EmptyAccess`; dereferencing the empty view (returned by a failed
`allocate()`) is a null-pointer dereference — undefined behaviour — rather
than an `EmptyAccess` failure. -/
theorem view_deref_spec {α : Type} (v : Vault α) (ev : ElementView) :
    (∀ i e, ev.ref = some i → v.storage.get? i = some e → e.inUse = true →
      ev.deref v = .ok e.data)
    ∧ (∀ i e, ev.ref = some i → v.storage.get? i = some e → e.inUse = false →
      ev.deref v = .emptyAccess)
    ∧ (ev.ref = none → ev.deref v = .nullDeref) := by
  refine ⟨?_, ?_, ?_⟩
  · intro i e hr he hu
    have he' : v.storage[i]? = some e := List.get?_eq_getElem? v.storage i ▸ he
    simp [ElementView.deref, hr, he', hu]
  · intro i e hr he hu
    have he' : v.storage[i]? = some e := List.get?_eq_getElem? v.storage i ▸ he
    simp [ElementView.deref, hr, he', hu]
  · intro hr
    simp [ElementView.deref, hr]

/-- Witness for C5 (amended), on `sampleVault`: the view of occupied slot 0
dereferences to its payload 10, the view of free slot 1 fails with
`EmptyAccess`, and the empty view hits the null dereference. -/
theorem view_deref_spec_witness :
    ElementView.deref ⟨some 0⟩ sampleVault = .ok 10
    ∧ ElementView.deref ⟨some 1⟩ sampleVault = .emptyAccess
    ∧ ElementView.deref ElementView.empty sampleVault = .nullDeref :=
  ⟨(view_deref_spec sampleVault ⟨some 0⟩).1 0 ⟨10, true⟩ rfl (by decide) rfl,
   (view_deref_spec sampleVault ⟨some 1⟩).2.1 1 ⟨20, false⟩ rfl (by decide) rfl,
   (view_deref_spec sampleVault ElementView.empty).2.2 rfl⟩

/-- Claim C10: the boolean liveness check (`operator bool`, `ref && ref->inUse`)
is total — safe even on the empty view, unlike `operator()` — and returns
`true` exactly when the view is bound to a currently occupied slot. -/
theorem view_bool_spec {α : Type} (v : Vault α) (ev : ElementView) :
    (ev.toBool v = true
      ↔ ∃ i e, ev.ref = some i ∧ v.storage.get? i = some e ∧ e.inUse = true)
    ∧ ElementView.empty.toBool v = false
    ∧ ElementView.empty.deref v = DerefOutcome.nullDeref := by
  refine ⟨⟨?_, ?_⟩, rfl, rfl⟩
  · intro hb
    cases hr : ev.ref with
    | none => simp [ElementView.toBool, hr] at hb
    | some i =>
      cases he : v.storage.get? i with
      | none =>
        have he' : v.storage[i]? = none := List.get?_eq_getElem? v.storage i ▸ he
        simp [ElementView.toBool, hr, he'] at hb
      | some e =>
        have he' : v.storage[i]? = some e := List.get?_eq_getElem? v.storage i ▸ he
        simp [ElementView.toBool, hr, he'] at hb
        exact ⟨i, e, rfl, he, hb⟩
  · rintro ⟨i, e, hr, he, hu⟩
    have he' : v.storage[i]? = some e := List.get?_eq_getElem? v.storage i ▸ he
    simp [ElementView.toBool, hr, he', hu]

/-- Witness for C10: on `sampleVault`, the view of occupied slot 0 tests
`true`, and the liveness check of the empty view evaluates (to `false`)
without faulting while dereferencing it would hit the null pointer. -/
theorem view_bool_spec_witness :
    ElementView.toBool ⟨some 0⟩ sampleVault = true
    ∧ ElementView.empty.toBool sampleVault = false
    ∧ ElementView.empty.deref sampleVault = DerefOutcome.nullDeref :=
  ⟨(view_bool_spec sampleVault ⟨some 0⟩).1.mpr ⟨0, ⟨10, true⟩, rfl, rfl, rfl⟩,
   (view_bool_spec sampleVault ElementView.empty).2.1,
   (view_bool_spec sampleVault ElementView.empty).2.2⟩

/-- Claim C9: none of `allocate()`, `deallocate(idx)`, `deallocate(pred)`
touches any payload — each rewrites occupancy flags only — and a successful
`allocate()` hands out a view that dereferences to the slot's previous,
unmodified payload (stale data; nothing is cleared on free or on claim). -/
theorem payload_frame_spec {α : Type} (v : Vault α) (i : Nat) (p : α → Bool) :
    (v.allocate).2.dataList = v.dataList
    ∧ (∀ b w, v.deallocate i = .ok (b, w) → w.dataList = v.dataList)
    ∧ (v.deallocatePred p).2.dataList = v.dataList
    ∧ (∀ j w, v.allocate = ((⟨some j⟩, true), w) →
        ∃ e, v.storage.get? j = some e ∧ ElementView.deref ⟨some j⟩ w = .ok e.data) := by
  refine ⟨?_, ?_, ?_, ?_⟩
  · cases hff : firstFree v.storage with
    | none => rw [Vault.allocate, hff]
    | some k =>
      rw [Vault.allocate, hff]
      exact setInUse_map_data v.storage k true
  · intro b w hd
    cases hg : v.storage.get? i with
    | none => rw [deallocate_eq_none hg] at hd; exact absurd hd (by simp)
    | some e =>
      rw [deallocate_eq_some hg] at hd
      by_cases hu : e.inUse = true
      · rw [if_pos hu] at hd
        simp only [Except.ok.injEq, Prod.mk.injEq] at hd
        rw [← hd.2]
        exact setInUse_map_data v.storage i false
      · rw [if_neg hu] at hd
        simp only [Except.ok.injEq, Prod.mk.injEq] at hd
        rw [← hd.2]
  · cases hm : firstMatch p v.storage with
    | none => rw [deallocatePred_eq_none hm]
    | some k =>
      rw [deallocatePred_eq_some hm]
      exact setInUse_map_data v.storage k false
  · intro j w ha
    cases hff : firstFree v.storage with
    | none =>
      rw [Vault.allocate, hff] at ha
      simp [ElementView.empty] at ha
    | some k =>
      rw [Vault.allocate, hff] at ha
      have hkj : k = j := by
        have := congrArg (fun x => x.1.1.ref) ha
        simpa using this
      subst hkj
      have hw : w = ⟨setInUse v.storage k true⟩ := by
        have := congrArg (fun x => x.2) ha
        simpa using this.symm
      subst hw
      obtain ⟨e, he, _⟩ := firstFree_some v.storage k hff
      refine ⟨e, he, ?_⟩
      have hs := setInUse_get?_self v.storage k true _ he
      have hs' : (setInUse v.storage k true)[k]? = some { data := e.data, inUse := true } :=
        List.get?_eq_getElem? (setInUse v.storage k true) k ▸ hs
      simp [ElementView.deref, hs']

/-- Witness for C9: on `sampleVault` with `i = 0` and predicate `25 ≤ a`,
every operation preserves the payload list, and after freeing slot 0 a fresh
allocation reclaims it and exposes the stale payload 10. -/
theorem payload_frame_spec_witness :
    ((sampleVault.deallocatePred (fun a => 25 ≤ a)).2.dataList = sampleVault.dataList)
    ∧ (∃ e, sampleVault.storage.get? 1 = some e ∧
        ElementView.deref ⟨some 1⟩ (sampleVault.allocate).2 = .ok e.data) :=
  ⟨(payload_frame_spec sampleVault 0 (fun a => 25 ≤ a)).2.2.1,
   (payload_frame_spec sampleVault 0 (fun a => 25 ≤ a)).2.2.2 1
      (sampleVault.allocate).2 (by decide)⟩

/-- A freshly constructed pool has no occupied slot. -/
theorem freshVault_occupiedCount {α : Type} (a : α) (n : Nat) :
    (freshVault α a n).occupiedCount = 0 := by
  induction n with
  | zero => rfl
  | succ m ih =>
    simp only [freshVault, Vault.occupiedCount, List.replicate_succ,
      List.filter] at ih ⊢
    exact ih

/-- Effect of one op on the occupied count: a successful allocation adds one,
a successful deallocation removes one, everything else leaves it unchanged. -/
theorem stepOp_count {α : Type} (v : Vault α) (op : Op α) :
    (stepOp v op).2.occupiedCount
        + (if !op.isAlloc && (stepOp v op).1 then 1 else 0)
      = v.occupiedCount + (if op.isAlloc && (stepOp v op).1 then 1 else 0) := by
  cases op with
  | alloc =>
    cases hff : firstFree v.storage with
    | none => simp [stepOp, Vault.allocate, hff, Op.isAlloc]
    | some i =>
      obtain ⟨e, he, hu⟩ := firstFree_some v.storage i hff
      have hc := countTrue_setInUse v.storage i true e he
      rw [hu] at hc
      simp only [stepOp, Vault.allocate, hff, Op.isAlloc, Vault.occupiedCount] at *
      simp at hc ⊢
      omega
  | deallocIdx i =>
    cases hg : v.storage.get? i with
    | none => simp [stepOp, deallocate_eq_none hg, Op.isAlloc]
    | some e =>
      cases hu : e.inUse with
      | false => simp [stepOp, deallocate_eq_some hg, hu, Op.isAlloc]
      | true =>
        have hc := countTrue_setInUse v.storage i false e hg
        rw [hu] at hc
        simp only [stepOp, deallocate_eq_some hg, hu, Op.isAlloc,
          Vault.occupiedCount] at *
        simp at hc ⊢
        omega
  | deallocByPred p =>
    cases hm : firstMatch p v.storage with
    | none => simp [stepOp, deallocatePred_eq_none hm, Op.isAlloc]
    | some i =>
      obtain ⟨e, he, hu, hp⟩ := firstMatch_some p v.storage i hm
      have hc := countTrue_setInUse v.storage i false e he
      rw [hu] at hc
      simp only [stepOp, deallocatePred_eq_some hm, Op.isAlloc,
        Vault.occupiedCount] at *
      simp at hc ⊢
      omega

/-- Running a sequence of ops preserves
`count + successful deallocations − successful allocations`. -/
theorem runCount_invariant {α : Type} (v : Vault α) (ops : List (Op α)) :
    (runCount v ops).1.occupiedCount + (runCount v ops).2.2
      = v.occupiedCount + (runCount v ops).2.1 := by
  induction ops generalizing v with
  | nil => simp [runCount]
  | cons op ops ih =>
    have hstep := stepOp_count v op
    have hrest := ih (stepOp v op).2
    cases ha : op.isAlloc with
    | true =>
      cases hr : (stepOp v op).1 with
      | true =>
        rw [ha, hr] at hstep
        simp at hstep
        simp [runCount, ha, hr]
        omega
      | false =>
        rw [ha, hr] at hstep
        simp at hstep
        simp [runCount, ha, hr]
        omega
    | false =>
      cases hr : (stepOp v op).1 with
      | true =>
        rw [ha, hr] at hstep
        simp at hstep
        simp [runCount, ha, hr]
        omega
      | false =>
        rw [ha, hr] at hstep
        simp at hstep
        simp [runCount, ha, hr]
        omega

/-- Claim C2: after any finite single-threaded sequence of `allocate()`,
`deallocate(index)` and `deallocate(predicate)` calls on a fresh pool, the
number of occupied slots equals successful allocations minus successful
deallocations (and the latter never exceeds the former). -/
theorem occupied_count_spec {α : Type} (a : α) (n : Nat) (ops : List (Op α)) :
    (runCount (freshVault α a n) ops).2.2 ≤ (runCount (freshVault α a n) ops).2.1
    ∧ (runCount (freshVault α a n) ops).1.occupiedCount
        = (runCount (freshVault α a n) ops).2.1
          - (runCount (freshVault α a n) ops).2.2 := by
  have h := runCount_invariant (freshVault α a n) ops
  rw [freshVault_occupiedCount a n] at h
  omega

theorem deallocateCoarse_eq_some {α : Type} {v : Vault α} {idx : Nat}
    {e : Element α} (h : v.storage.get? idx = some e) :
    v.deallocateCoarse idx = .ok (e.inUse, ⟨setInUse v.storage idx false⟩) := by
  unfold Vault.deallocateCoarse
  rw [h]

theorem deallocateCoarse_eq_none {α : Type} {v : Vault α} {idx : Nat}
    (h : v.storage.get? idx = none) :
    v.deallocateCoarse idx = .error .OutOfRange := by
  unfold Vault.deallocateCoarse
  rw [h]

/-- Claim C8: the lock-free variant (per-slot atomic flags, `LOCK_FREE == 1`)
and the coarse variant (container-wide lock, `LOCK_FREE == 0`) of each
mutating call return the same result and leave the same pool state when run
single-threaded; the coarse predicate-deallocation loop terminates on its
first pass (any positive fuel suffices).  `view`, iteration and `capacity`
are compiled from variant-independent code. -/
theorem variant_equivalence {α : Type} (v : Vault α) (idx : Nat)
    (p : α → Bool) (fuel : Nat) (h : 0 < fuel) :
    v.allocateCoarse = v.allocate
    ∧ v.deallocateCoarse idx = v.deallocate idx
    ∧ deallocPredCoarseFuel p v fuel = some (v.deallocatePred p) := by
  refine ⟨rfl, ?_, ?_⟩
  · cases hg : v.storage.get? idx with
    | none => rw [deallocateCoarse_eq_none hg, deallocate_eq_none hg]
    | some e =>
      rw [deallocateCoarse_eq_some hg, deallocate_eq_some hg]
      cases hu : e.inUse with
      | true => rw [if_pos rfl]
      | false =>
        rw [if_neg (by simp)]
        rw [setInUse_eq_self v.storage idx false e hg hu]
  · cases fuel with
    | zero => omega
    | succ f =>
      cases hm : firstMatch p v.storage with
      | none =>
        rw [deallocatePred_eq_none hm]
        simp [deallocPredCoarseFuel, hm]
      | some i =>
        obtain ⟨e, he, hu, hp⟩ := firstMatch_some p v.storage i hm
        rw [deallocatePred_eq_some hm]
        have he' : v.storage[i]? = some e := List.get?_eq_getElem? v.storage i ▸ he
        simp [deallocPredCoarseFuel, hm, he', hp, hu]

/-- Witness for C8: on `sampleVault` with index 0, predicate `25 ≤ a` and
one unit of fuel, the two variants agree call by call. -/
theorem variant_equivalence_witness :
    sampleVault.allocateCoarse = sampleVault.allocate
    ∧ sampleVault.deallocateCoarse 0 = sampleVault.deallocate 0
    ∧ deallocPredCoarseFuel (fun a => 25 ≤ a) sampleVault 1
        = some (sampleVault.deallocatePred (fun a => 25 ≤ a)) :=
  variant_equivalence sampleVault 0 (fun a => 25 ≤ a) 1 (by decide)

/-- The iterator visit sequence started by a `find_if` from position `s`
equals the ascending occupied-index list from `s`. -/
theorem iterSeq_findOccFrom {α : Type} (l : List (Element α)) (s : Nat)
    (_hs : s ≤ l.length) :
    iterSeq l (findOccFrom l s) = occIdxFrom l s := by
  by_cases h : s < l.length
  · by_cases ho : (l.get ⟨s, h⟩).inUse = true
    · have hf : findOccFrom l s = s := by
        unfold findOccFrom
        rw [dif_pos h, if_pos ho]
      rw [hf]
      rw [iterSeq, dif_pos h]
      unfold occIdxFrom
      rw [dif_pos h, if_pos ho]
      rw [List.singleton_append]
      rw [iterSeq_findOccFrom l (s + 1) (by omega)]
    · have hf : findOccFrom l s = findOccFrom l (s + 1) := by
        conv_lhs => unfold findOccFrom
        rw [dif_pos h, if_neg ho]
      rw [hf]
      unfold occIdxFrom
      rw [dif_pos h, if_neg ho]
      rw [List.nil_append]
      exact iterSeq_findOccFrom l (s + 1) (by omega)
  · have hf : findOccFrom l s = l.length := by
      unfold findOccFrom
      rw [dif_neg h]
    rw [hf]
    unfold occIdxFrom iterSeq
    rw [dif_neg h, dif_neg (by omega)]
termination_by l.length - s

/-- The ascending occupied-index list from `s` is the filter of the index
range by occupancy. -/
theorem occIdxFrom_eq_filter {α : Type} (v : Vault α) (s : Nat) :
    occIdxFrom v.storage s
      = (List.range' s (v.storage.length - s)).filter (fun i => v.occupiedAt i) := by
  by_cases h : s < v.storage.length
  · have hrange : v.storage.length - s = (v.storage.length - (s + 1)) + 1 := by omega
    rw [hrange, List.range'_succ]
    unfold occIdxFrom
    rw [dif_pos h]
    have hocc : v.occupiedAt s = (v.storage.get ⟨s, h⟩).inUse :=
      occupiedAt_of_get? (List.get?_eq_get h)
    by_cases ho : (v.storage.get ⟨s, h⟩).inUse = true
    · have hps : v.occupiedAt s = true := by rw [hocc]; exact ho
      rw [if_pos ho]
      rw [List.filter_cons_of_pos (by simp [hps])]
      rw [List.singleton_append]
      rw [occIdxFrom_eq_filter v (s + 1)]
    · have hps : v.occupiedAt s = false := by
        rw [hocc]; exact Bool.not_eq_true _ |>.mp ho
      rw [if_neg ho]
      rw [List.filter_cons_of_neg (by simp [hps])]
      rw [List.nil_append]
      exact occIdxFrom_eq_filter v (s + 1)
  · have h0 : v.storage.length - s = 0 := by omega
    rw [h0]
    unfold occIdxFrom
    rw [dif_neg h]
    rfl
termination_by v.storage.length - s

/-- Claim C7: iterating from `begin()` to `end()` visits exactly the occupied
indices, in ascending order, each exactly once and no free slot ever
(the visit sequence is the occupancy filter of `0, …, capacity − 1`), and the
view yielded at each visited index dereferences to that slot's stored
payload. -/
theorem iterate_spec {α : Type} (v : Vault α) :
    v.iterIndices = (List.range v.capacity).filter (fun i => v.occupiedAt i)
    ∧ ∀ i ∈ v.iterIndices, ∃ e, v.storage.get? i = some e ∧ e.inUse = true ∧
        ElementView.deref ⟨some i⟩ v = .ok e.data := by
  have h1 : v.iterIndices
      = (List.range v.capacity).filter (fun i => v.occupiedAt i) := by
    unfold Vault.iterIndices
    rw [iterSeq_findOccFrom v.storage 0 (by omega), occIdxFrom_eq_filter v 0]
    rw [show Vault.capacity v = v.storage.length from rfl]
    rw [List.range_eq_range' v.storage.length, Nat.sub_zero]
  refine ⟨h1, ?_⟩
  intro i hi
  rw [h1] at hi
  have hocc : v.occupiedAt i = true := List.of_mem_filter hi
  cases he : v.storage.get? i with
  | none => rw [occupiedAt_of_get?_none he] at hocc; exact absurd hocc (by simp)
  | some e =>
    rw [occupiedAt_of_get? he] at hocc
    refine ⟨e, rfl, hocc, ?_⟩
    have he' : v.storage[i]? = some e := List.get?_eq_getElem? v.storage i ▸ he
    simp [ElementView.deref, he', hocc]

/-- Witness for C7: on `sampleVault`, iteration visits exactly the occupancy
filter of the index range, and the view at visited index 0 dereferences to
payload 10. -/
theorem iterate_spec_witness :
    sampleVault.iterIndices
        = (List.range sampleVault.capacity).filter (fun i => sampleVault.occupiedAt i)
    ∧ (∃ e, sampleVault.storage.get? 0 = some e ∧ e.inUse = true ∧
        ElementView.deref ⟨some 0⟩ sampleVault = .ok e.data) :=
  ⟨(iterate_spec sampleVault).1,
   (iterate_spec sampleVault).2 0 (by
      rw [(iterate_spec sampleVault).1]
      decide)⟩

end MtVault
